import Mathlib

/-!
Shallow embedding of `src/app/app.py`, a Flask service that decodes an
inbound image (data-URL string or uploaded file), preprocesses it to a
(1, 224, 224, 3) tensor, runs a classifier and maps the argmax index to a
letter.  Python strings are embedded as `List Char`, byte strings as
`List Nat` (each element intended `< 256`), floats as `ℚ` (the properties
verified here — shapes, bounds, argmax/tie-breaking, dispatch — do not
depend on floating-point rounding).  External library calls that the
repository does not define (the `cv2` image codec and `cv2.resize`) are
modelled from the spec where noted; `cv2.imdecode` is kept abstract as a
`Decoder` parameter.
-/

/-- A decoded colour image as produced by `cv2.imdecode(..., cv2.IMREAD_COLOR)`:
rows of pixels, each pixel a BGR triple of 8-bit values (intended `≤ 255`). -/
abbrev BGRPixel := Nat × Nat × Nat

abbrev Image := List (List BGRPixel)

/-- Abstract stand-in for `cv2.imdecode`: raw bytes to a decoded image, `none`
when the bytes are not a valid image (cv2 returns `None` there). -/
abbrev Decoder := List Nat → Option Image

/-- Errors raised by the Python code along the request path. -/
inductive PyError
  /-- `AttributeError`: `.read()` called on a `str` or `None`. -/
  | attributeError
  /-- `ValueError`: `header, encoded = data.split(',', 1)` with no comma. -/
  | valueError
  /-- `binascii.Error`: `base64.b64decode` on a malformed payload. -/
  | binasciiError
  /-- `cv2.error`: `cv2.cvtColor` applied to the `None` that `cv2.imdecode`
  returns on undecodable bytes — the spec's `DecodeError`. -/
  | decodeError
deriving DecidableEq, Repr

/-- The values the handlers pass to `preprocess_image`: Python's `None`, a
`str`, or a Werkzeug `FileStorage` upload (here just its `filename` and the
bytes its `.read()` yields). -/
structure FileStorage where
  filename : List Char
  content : List Nat
deriving DecidableEq, Repr

inductive PyValue
  | none
  | str (s : List Char)
  | fileStorage (f : FileStorage)
deriving DecidableEq, Repr

/-- The base64 alphabet, value `i` encoded by the `i`-th character. -/
def b64alphabet : List Char :=
  "ABCDEFGHIJKLMNOPQRSTUVWXYZabcdefghijklmnopqrstuvwxyz0123456789+/".toList

def sextetChar (n : Nat) : Char := b64alphabet.getD n 'A'

def sextetVal (c : Char) : Option Nat :=
  if c ∈ b64alphabet then some (b64alphabet.indexOf c) else none

/-- Standard padded base64 encoding of a byte string (`base64.b64encode`),
used to state the data-URL entry point on raw bytes. -/
def b64encode : List Nat → List Char
  | [] => []
  | [a] => [sextetChar (a / 4), sextetChar (a % 4 * 16), '=', '=']
  | [a, b] => [sextetChar (a / 4), sextetChar (a % 4 * 16 + b / 16),
      sextetChar (b % 16 * 4), '=']
  | a :: b :: c :: rest =>
      sextetChar (a / 4) :: sextetChar (a % 4 * 16 + b / 16) ::
      sextetChar (b % 16 * 4 + c / 64) :: sextetChar (c % 64) :: b64encode rest

/-- Modelled from the spec: `base64.b64decode` (the Python standard library is
not part of this repository).  Decodes four characters at a time, `=` padding
allowed only in the final group, `none` on malformed input (Python raises
`binascii.Error`). -/
def b64decode : List Char → Option (List Nat)
  | [] => some []
  | c1 :: c2 :: c3 :: c4 :: rest =>
      match sextetVal c1, sextetVal c2 with
      | some a, some b =>
          if c3 = '=' then
            if c4 = '=' ∧ rest = [] then some [a * 4 + b / 16] else none
          else
            match sextetVal c3 with
            | some c =>
                if c4 = '=' then
                  if rest = [] then some [a * 4 + b / 16, b % 16 * 16 + c / 4]
                  else none
                else
                  match sextetVal c4 with
                  | some d =>
                      match b64decode rest with
                      | some tl => some ((a * 4 + b / 16) :: (b % 16 * 16 + c / 4) ::
                          (c % 4 * 64 + d) :: tl)
                      | none => none
                  | none => none
            | none => none
      | _, _ => none
  | _ => none

/-- Python's `s.split(',', 1)` followed by the two-name unpacking
`header, encoded = ...`: the part before the first comma and the part after
it; `none` when there is no comma (the unpacking raises `ValueError`). -/
def splitFirstComma : List Char → Option (List Char × List Char)
  | [] => none
  | c :: rest =>
      if c = ',' then some ([], rest)
      else (splitFirstComma rest).map (fun p => (c :: p.1, p.2))

/-- The byte-extraction stage of `preprocess_image` (src/app/app.py lines
25–34): a `str` starting with `data:image` is split at the first comma and its
payload base64-decoded; anything else has `.read()` called on it, which
succeeds only for a `FileStorage` and raises `AttributeError` for `str` and
`None`. -/
def extract_image_bytes : PyValue → Except PyError (List Nat)
  | .str s =>
      if "data:image".toList.isPrefixOf s then
        match splitFirstComma s with
        | Option.none => .error .valueError
        | some p =>
            match b64decode p.2 with
            | some bs => .ok bs
            | Option.none => .error .binasciiError
      else .error .attributeError
  | .fileStorage f => .ok f.content
  | .none => .error .attributeError

/-- `cv2.cvtColor(img, cv2.COLOR_BGR2RGB)`: reverse each pixel's channel
triple. -/
def cvtColorBGR2RGB (img : Image) : Image :=
  img.map (List.map (fun p => (p.2.2, p.2.1, p.1)))

/-- Modelled from the spec: `cv2.resize` to the fixed 224×224 target
("resized (using standard interpolation) to a fixed target size of 224×224
pixels"); `cv2` is not part of this repository, so the interpolation is
modelled as nearest-neighbour sampling, which fixes the output dimensions at
224×224 and keeps every output channel value among the source values (or 0
beyond the source extent). -/
def resize224 (img : Image) : Image :=
  (List.range 224).map fun i =>
    (List.range 224).map fun j =>
      (img.getD (i * img.length / 224) []).getD
        (j * (img.headD []).length / 224) (0, 0, 0)

abbrev Tensor3 := List (List (List ℚ))

abbrev Tensor4 := List (List (List (List ℚ)))

/-- `img = img / 255.0`: the H×W×3 uint8 array becomes a float array; each
pixel's RGB triple becomes the 3-element innermost axis, each value divided
by 255. -/
def normalize255 (img : Image) : Tensor3 :=
  img.map (List.map (fun p => [(p.1 : ℚ) / 255, (p.2.1 : ℚ) / 255, (p.2.2 : ℚ) / 255]))

/-- `np.expand_dims(img, axis=0)`: prepend a batch axis of size 1. -/
def expandDims (t : Tensor3) : Tensor4 := [t]

/-- The tail of `preprocess_image` after a successful decode (lines 37–43):
BGR→RGB, resize to 224×224, divide by 255, prepend the batch axis. -/
def pipelineAfterDecode (img : Image) : Tensor4 :=
  expandDims (normalize255 (resize224 (cvtColorBGR2RGB img)))

/-- `preprocess_image` (src/app/app.py lines 23–43), parameterised by the
`cv2.imdecode` decoder.  The source duplicates the `imdecode` call in the two
branches and then runs a common tail; here the branches are factored through
`extract_image_bytes` followed by the shared decode and tail. -/
def preprocess_image (dec : Decoder) (data : PyValue) : Except PyError Tensor4 :=
  match extract_image_bytes data with
  | .error e => .error e
  | .ok bytes =>
      match dec bytes with
      | Option.none => .error .decodeError
      | some img => .ok (pipelineAfterDecode img)

/-- Accumulator loop of `np.argmax`: scan positions `i, i+1, ...` of the
remaining list, keeping the index `best` (value `bestVal`) of the first
maximum seen so far; a later element replaces it only when strictly
greater. -/
def np_argmaxAux (i best : Nat) (bestVal : ℚ) : List ℚ → Nat
  | [] => best
  | x :: xs =>
      if bestVal < x then np_argmaxAux (i + 1) i x xs
      else np_argmaxAux (i + 1) best bestVal xs

/-- `np.argmax` on a 1-D score vector: index of the first occurrence of the
maximum.  (`np.argmax` raises on an empty array; the `[]` case is junk and
every theorem below assumes a nonempty vector.) -/
def np_argmax : List ℚ → Nat
  | [] => 0
  | x :: xs => np_argmaxAux 1 0 x xs

/-- `string.ascii_uppercase` as a character list. -/
def ascii_uppercase : List Char := "ABCDEFGHIJKLMNOPQRSTUVWXYZ".toList

/-- `LABEL_MAP = dict(enumerate(string.ascii_uppercase))` built by
`load_model` (src/app/app.py line 19), as an association list keyed by the
class index. -/
def LABEL_MAP : List (Nat × Char) := ascii_uppercase.enum

/-- The label-decoding step shared by both handlers (lines 56–57 and 67–68):
`LABEL_MAP.get(int(np.argmax(preds)), '?')`. -/
def decode_label (label_map : List (Nat × Char)) (preds : List ℚ) : Char :=
  (label_map.lookup (np_argmax preds)).getD '?'

/-- The process-wide state built by `load_model`: the loaded model (kept
abstract as a function from the input tensor to the score vector) and the
label map. -/
structure ServerState where
  model : Tensor4 → List ℚ
  label_map : List (Nat × Char)

/-- `load_model` (lines 15–20): the Keras model artifact is external to the
repository, so the loaded classifier is a parameter; the label map is
constructed from the alphabet. -/
def load_model (m : Tensor4 → List ℚ) : ServerState :=
  ⟨m, LABEL_MAP⟩

/-- The JSON bodies the handlers return: `jsonify({'error': msg})` or
`jsonify({'prediction': letter})`. -/
inductive JsonBody
  | err (msg : List Char)
  | prediction (letter : Char)
deriving DecidableEq, Repr

structure HttpResponse where
  body : JsonBody
  status : Nat
deriving DecidableEq, Repr

/-- `/predict` handler (lines 49–57), with the request's JSON body as an
association list of string fields.  Mutation of the process-wide state is
made observable by threading `ServerState` explicitly; an uncaught Python
exception is `Except.error` (Flask turns it into a 500 server error outside
the handler). -/
def predict (dec : Decoder) (s : ServerState) (body : List (List Char × List Char)) :
    ServerState × Except PyError HttpResponse :=
  let image_data : PyValue :=
    match body.lookup "image".toList with
    | Option.none => .none
    | some v => .str v
  match preprocess_image dec image_data with
  | .error e => (s, .error e)
  | .ok img =>
      let preds := s.model img
      let letter := decode_label s.label_map preds
      (s, .ok ⟨.prediction letter, 200⟩)

/-- `/classify_image` handler (lines 59–68), with `request.files` as an
association list.  `file = request.files.get('image')` is `None` when the
field is absent; `if not file:` is also taken when the retrieved
`FileStorage` is falsy, which per Werkzeug's `FileStorage.__bool__` means an
empty `filename`. -/
def classify_image (dec : Decoder) (s : ServerState)
    (files : List (List Char × FileStorage)) :
    ServerState × Except PyError HttpResponse :=
  match files.lookup "image".toList with
  | Option.none => (s, .ok ⟨.err "No image provided".toList, 400⟩)
  | some f =>
      if f.filename = [] then (s, .ok ⟨.err "No image provided".toList, 400⟩)
      else
        match preprocess_image dec (.fileStorage f) with
        | .error e => (s, .error e)
        | .ok img =>
            let preds := s.model img
            let letter := decode_label s.label_map preds
            (s, .ok ⟨.prediction letter, 200⟩)

/-- Decoded images produced by `cv2.imdecode` hold 8-bit channel values. -/
def imageWellFormed (img : Image) : Prop :=
  ∀ row ∈ img, ∀ p ∈ row, p.1 ≤ 255 ∧ p.2.1 ≤ 255 ∧ p.2.2 ≤ 255

instance (img : Image) : Decidable (imageWellFormed img) := by
  unfold imageWellFormed
  infer_instance

/-- Shape (1, 224, 224, 3) of a 4-D tensor in the nested-list embedding. -/
def tensorShape4 (t : Tensor4) : Prop :=
  t.length = 1 ∧ ∀ b ∈ t, b.length = 224 ∧
    ∀ r ∈ b, r.length = 224 ∧ ∀ p ∈ r, p.length = 3

/-- Every element of the 4-D tensor lies in the closed interval [0, 1]. -/
def tensorRange01 (t : Tensor4) : Prop :=
  ∀ b ∈ t, ∀ r ∈ b, ∀ p ∈ r, ∀ q ∈ p, 0 ≤ q ∧ q ≤ 1

theorem np_argmaxAux_keep (xs : List ℚ) : ∀ (i best : Nat) (bv : ℚ),
    (∀ k, k < xs.length → xs.getD k 0 ≤ bv) →
    np_argmaxAux i best bv xs = best := by
  induction xs with
  | nil => intro i best bv _; rfl
  | cons x xs ih =>
      intro i best bv h
      have hx : x ≤ bv := by simpa using h 0 (Nat.succ_pos _)
      rw [np_argmaxAux, if_neg (not_lt.2 hx)]
      exact ih _ _ _ fun k hk => by simpa using h (k + 1) (Nat.succ_lt_succ hk)

theorem np_argmaxAux_find (xs : List ℚ) : ∀ (i best : Nat) (bv : ℚ) (t : Nat),
    t < xs.length →
    (∀ k, k < xs.length → xs.getD k 0 ≤ xs.getD t 0) →
    (∀ k, k < t → xs.getD k 0 < xs.getD t 0) →
    bv < xs.getD t 0 →
    np_argmaxAux i best bv xs = i + t := by
  induction xs with
  | nil => intro _ _ _ t ht; exact absurd ht (Nat.not_lt_zero t)
  | cons x xs ih =>
      intro i best bv t ht hmax hfirst hbv
      cases t with
      | zero =>
          have hbx : bv < x := by simpa using hbv
          rw [np_argmaxAux, if_pos hbx]
          have hkeep : np_argmaxAux (i + 1) i x xs = i :=
            np_argmaxAux_keep xs (i + 1) i x
              (fun k hk => by simpa using hmax (k + 1) (Nat.succ_lt_succ hk))
          rw [hkeep]
          omega
      | succ t' =>
          have ht' : t' < xs.length := Nat.lt_of_succ_lt_succ ht
          have htv : (x :: xs).getD (t' + 1) 0 = xs.getD t' 0 := by simp
          by_cases hbx : bv < x
          · rw [np_argmaxAux, if_pos hbx]
            have := ih (i + 1) i x t' ht'
              (fun k hk => by simpa using hmax (k + 1) (Nat.succ_lt_succ hk))
              (fun k hk => by simpa using hfirst (k + 1) (Nat.succ_lt_succ hk))
              (by simpa using hfirst 0 (Nat.succ_pos t'))
            omega
          · rw [np_argmaxAux, if_neg hbx]
            have := ih (i + 1) best bv t' ht'
              (fun k hk => by simpa using hmax (k + 1) (Nat.succ_lt_succ hk))
              (fun k hk => by simpa using hfirst (k + 1) (Nat.succ_lt_succ hk))
              (by rw [htv] at hbv; exact hbv)
            omega

theorem np_argmax_first_max (l : List ℚ) (i : Nat) (hi : i < l.length)
    (hmax : ∀ k, k < l.length → l.getD k 0 ≤ l.getD i 0)
    (hfirst : ∀ k, k < i → l.getD k 0 < l.getD i 0) :
    np_argmax l = i := by
  cases l with
  | nil => exact absurd hi (Nat.not_lt_zero i)
  | cons x xs =>
      rw [np_argmax]
      cases i with
      | zero =>
          apply np_argmaxAux_keep
          intro k hk
          simpa using hmax (k + 1) (Nat.succ_lt_succ hk)
      | succ i' =>
          have := np_argmaxAux_find xs 1 0 x i' (Nat.lt_of_succ_lt_succ hi)
            (fun k hk => by simpa using hmax (k + 1) (Nat.succ_lt_succ hk))
            (fun k hk => by simpa using hfirst (k + 1) (Nat.succ_lt_succ hk))
            (by simpa using hfirst 0 (Nat.succ_pos i'))
          omega

theorem lookup_enumFrom (l : List Char) : ∀ (n i : Nat),
    (l.enumFrom n).lookup (n + i) = l.get? i := by
  induction l with
  | nil => intro n i; rfl
  | cons x xs ih =>
      intro n i
      cases i with
      | zero => simp [List.enumFrom, List.lookup]
      | succ i' =>
          have hne : (n + (i' + 1) == n) = false :=
            beq_eq_false_iff_ne.2 (by omega)
          simp only [List.enumFrom, List.lookup, hne]
          have h2 : n + (i' + 1) = (n + 1) + i' := by omega
          rw [h2, ih (n + 1) i']
          simp

theorem LABEL_MAP_lookup (i : Nat) : LABEL_MAP.lookup i = ascii_uppercase.get? i := by
  have := lookup_enumFrom ascii_uppercase 0 i
  simpa [LABEL_MAP, List.enum] using this

theorem ascii_uppercase_length : ascii_uppercase.length = 26 := by decide

theorem ascii_uppercase_getD_eq (j : Nat) (hj : j < 26) :
    ascii_uppercase.getD j '?' = Char.ofNat (65 + j) := by
  revert j
  decide

/-- C3: label decoding applied to a prediction vector whose (unique, strict)
maximum is at index `i` with `0 ≤ i ≤ 25` — for example a one-hot vector at
`i` — returns the `i`-th letter of the uppercase alphabet, i.e.
`Char.ofNat (65 + i)`, so index 0 maps to 'A' and index 25 to 'Z'. -/
theorem decode_label_onehot (preds : List ℚ) (i : Nat) (hi : i ≤ 25)
    (hlen : i < preds.length)
    (hstrict : ∀ j, j < preds.length → j ≠ i → preds.getD j 0 < preds.getD i 0) :
    decode_label LABEL_MAP preds = ascii_uppercase.getD i '?' ∧
    decode_label LABEL_MAP preds = Char.ofNat (65 + i) := by
  have hmax : ∀ k, k < preds.length → preds.getD k 0 ≤ preds.getD i 0 := by
    intro k hk
    rcases eq_or_ne k i with rfl | hne
    · exact le_refl _
    · exact le_of_lt (hstrict k hk hne)
  have hfirst : ∀ k, k < i → preds.getD k 0 < preds.getD i 0 := fun k hk =>
    hstrict k (lt_trans hk hlen) (Nat.ne_of_lt hk)
  have harg : np_argmax preds = i := np_argmax_first_max preds i hlen hmax hfirst
  have hi' : i < ascii_uppercase.length := by rw [ascii_uppercase_length]; omega
  have hget : ascii_uppercase.get? i = some (ascii_uppercase.getD i '?') := by
    cases h : ascii_uppercase.get? i with
    | none =>
        rw [List.get?_eq_none] at h
        omega
    | some a =>
        rw [List.getD_eq_getElem?_getD, ← List.get?_eq_getElem?, h]
        rfl
  have h1 : decode_label LABEL_MAP preds = ascii_uppercase.getD i '?' := by
    rw [decode_label, harg, LABEL_MAP_lookup, hget]
    rfl
  exact ⟨h1, by rw [h1, ascii_uppercase_getD_eq i (by omega)]⟩

theorem decode_label_onehot_witness :
    (2 : Nat) ≤ 25 ∧ 2 < ([0, 0, 1, 0] : List ℚ).length ∧
    (∀ j, j < ([0, 0, 1, 0] : List ℚ).length → j ≠ 2 →
      ([0, 0, 1, 0] : List ℚ).getD j 0 < ([0, 0, 1, 0] : List ℚ).getD 2 0) ∧
    decode_label LABEL_MAP [0, 0, 1, 0] = Char.ofNat (65 + 2) :=
  ⟨by decide, by decide, by decide,
    (decode_label_onehot [0, 0, 1, 0] 2 (by decide) (by decide) (by decide)).2⟩

/-- C4: when the argmax index of the prediction vector lies outside the
domain 0..25 of `LABEL_MAP`, label decoding returns the sentinel `'?'`
instead of failing. -/
theorem decode_label_out_of_range (preds : List ℚ) (h : 25 < np_argmax preds) :
    decode_label LABEL_MAP preds = '?' := by
  rw [decode_label, LABEL_MAP_lookup]
  have hnone : ascii_uppercase.get? (np_argmax preds) = none := by
    rw [List.get?_eq_none, ascii_uppercase_length]
    omega
  rw [hnone]
  rfl

theorem decode_label_out_of_range_witness :
    25 < np_argmax (List.replicate 26 (0 : ℚ) ++ [1]) ∧
    decode_label LABEL_MAP (List.replicate 26 (0 : ℚ) ++ [1]) = '?' :=
  ⟨by decide, decode_label_out_of_range _ (by decide)⟩

/-- C7: when two or more entries of the prediction vector are tied at the
maximum score, `np.argmax` — and with it the predicted label — is determined
by the lowest (first-occurring) index among the tied maxima. -/
theorem np_argmax_tie_lowest (preds : List ℚ) (i j : Nat)
    (hij : i < j) (hj : j < preds.length)
    (_htie : preds.getD j 0 = preds.getD i 0)
    (hmax : ∀ k, k < preds.length → preds.getD k 0 ≤ preds.getD i 0)
    (hfirst : ∀ k, k < i → preds.getD k 0 < preds.getD i 0) :
    np_argmax preds = i ∧
    decode_label LABEL_MAP preds = (LABEL_MAP.lookup i).getD '?' := by
  have hi : i < preds.length := lt_trans hij hj
  have harg := np_argmax_first_max preds i hi hmax hfirst
  exact ⟨harg, by rw [decode_label, harg]⟩

theorem np_argmax_tie_lowest_witness :
    (1 : Nat) < 2 ∧ 2 < ([5, 9, 9, 1] : List ℚ).length ∧
    ([5, 9, 9, 1] : List ℚ).getD 2 0 = ([5, 9, 9, 1] : List ℚ).getD 1 0 ∧
    (∀ k, k < ([5, 9, 9, 1] : List ℚ).length →
      ([5, 9, 9, 1] : List ℚ).getD k 0 ≤ ([5, 9, 9, 1] : List ℚ).getD 1 0) ∧
    (∀ k, k < 1 → ([5, 9, 9, 1] : List ℚ).getD k 0 < ([5, 9, 9, 1] : List ℚ).getD 1 0) ∧
    np_argmax [5, 9, 9, 1] = 1 :=
  ⟨by decide, by decide, by decide, by decide, by decide,
    (np_argmax_tie_lowest [5, 9, 9, 1] 1 2 (by decide) (by decide) (by decide)
      (by decide) (by decide)).1⟩

/-- C8: neither per-request handler mutates the process-wide state built at
startup: for every request — whether it succeeds, returns an error response,
or raises — the `ServerState` (the shared model and the label map, hence the
exact set of label-map entries) after handling `/predict` or
`/classify_image` is the state before it. -/
theorem handlers_preserve_state :
    (∀ (dec : Decoder) (s : ServerState) (body : List (List Char × List Char)),
      (predict dec s body).1 = s) ∧
    (∀ (dec : Decoder) (s : ServerState) (files : List (List Char × FileStorage)),
      (classify_image dec s files).1 = s) := by
  constructor
  · intro dec s body
    rw [predict]
    cases preprocess_image dec
        (match body.lookup "image".toList with
          | Option.none => PyValue.none
          | some v => PyValue.str v) <;> rfl
  · intro dec s files
    rw [classify_image]
    split
    · rfl
    · split
      · rfl
      · split <;> rfl

/-- C5: a POST to `/classify_image` whose `image` file field is absent gets
the 400 response with body `error: No image provided`; the result is the
same for every decoder and every model, i.e. neither `preprocess_image` nor
`model.predict` is invoked on such a request, and the state is unchanged. -/
theorem classify_image_missing_file (dec : Decoder) (s : ServerState)
    (files : List (List Char × FileStorage))
    (h : files.lookup "image".toList = Option.none) :
    classify_image dec s files = (s, .ok ⟨.err "No image provided".toList, 400⟩) := by
  rw [classify_image, h]

theorem classify_image_missing_file_witness :
    ([] : List (List Char × FileStorage)).lookup "image".toList = Option.none ∧
    classify_image (fun _ => Option.none) (load_model fun _ => []) [] =
      (load_model fun _ => [], .ok ⟨.err "No image provided".toList, 400⟩) :=
  ⟨rfl, classify_image_missing_file _ _ [] rfl⟩

/-- C10: the guard on `/classify_image` is `if not file:`, a truthiness
test, not a presence test: a request whose `image` field is present but
holds a falsy `FileStorage` — per Werkzeug one with an empty `filename` —
also gets the 400 `error: No image provided` response, for every decoder and
model (so no preprocessing or inference runs), with the state unchanged. -/
theorem classify_image_falsy_file (dec : Decoder) (s : ServerState)
    (files : List (List Char × FileStorage)) (f : FileStorage)
    (h : files.lookup "image".toList = some f) (hn : f.filename = []) :
    classify_image dec s files = (s, .ok ⟨.err "No image provided".toList, 400⟩) := by
  rw [classify_image, h]
  dsimp only
  rw [if_pos hn]

theorem classify_image_falsy_file_witness :
    [("image".toList, FileStorage.mk [] [7])].lookup "image".toList =
      some (FileStorage.mk [] [7]) ∧
    (FileStorage.mk [] [7]).filename = [] ∧
    classify_image (fun _ => Option.none) (load_model fun _ => [])
      [("image".toList, FileStorage.mk [] [7])] =
      (load_model fun _ => [], .ok ⟨.err "No image provided".toList, 400⟩) :=
  ⟨by decide, rfl,
    classify_image_falsy_file _ _ _ (FileStorage.mk [] [7]) (by decide) rfl⟩

/-- C6: whenever the raw bytes reaching the decode step are not a valid
image — `cv2.imdecode` yields no data — `preprocess_image` fails with the
decode error (the `cv2.error` raised by `cv2.cvtColor` on `None`, the
spec's `DecodeError`). -/
theorem preprocess_image_decode_failure (dec : Decoder) (data : PyValue)
    (bytes : List Nat) (hb : extract_image_bytes data = .ok bytes)
    (hdec : dec bytes = Option.none) :
    preprocess_image dec data = .error .decodeError := by
  rw [preprocess_image, hb]
  dsimp only
  rw [hdec]

theorem preprocess_image_decode_failure_witness :
    extract_image_bytes (.fileStorage ⟨['x'], [1, 2]⟩) = .ok [1, 2] ∧
    (fun _ : List Nat => (Option.none : Option Image)) [1, 2] = Option.none ∧
    preprocess_image (fun _ => Option.none) (.fileStorage ⟨['x'], [1, 2]⟩) =
      .error .decodeError :=
  ⟨rfl, rfl, preprocess_image_decode_failure (fun _ => Option.none) _ [1, 2] rfl rfl⟩

/-- C9: on `/predict`, a missing `image` field (Python `None`) and a string
field that does not begin with `data:image` are both dispatched to the
byte-stream branch, whose `.read()` call raises `AttributeError`; the
handler returns no structured client-error JSON — the exception propagates
(Flask's generic 500).  Only a string beginning with `data:image` takes the
data-URL branch: it is split at the first comma and the payload handed to
`base64.b64decode`. -/
theorem predict_dispatch :
    (∀ (dec : Decoder) (s : ServerState) (body : List (List Char × List Char)),
      body.lookup "image".toList = Option.none →
      predict dec s body = (s, .error .attributeError)) ∧
    (∀ (dec : Decoder) (s : ServerState) (body : List (List Char × List Char))
      (v : List Char), body.lookup "image".toList = some v →
      "data:image".toList.isPrefixOf v = false →
      predict dec s body = (s, .error .attributeError)) ∧
    (∀ (v hdr rest : List Char), "data:image".toList.isPrefixOf v = true →
      splitFirstComma v = some (hdr, rest) →
      extract_image_bytes (.str v) =
        match b64decode rest with
        | some bs => Except.ok bs
        | Option.none => Except.error PyError.binasciiError) := by
  refine ⟨?_, ?_, ?_⟩
  · intro dec s body h
    rw [predict, h]
    rfl
  · intro dec s body v h hp
    rw [predict, h]
    dsimp only
    rw [preprocess_image, extract_image_bytes]
    rw [if_neg (by rw [hp]; exact Bool.false_ne_true)]
  · intro v hdr rest hp hsplit
    rw [extract_image_bytes, if_pos hp, hsplit]

theorem predict_dispatch_witness :
    ([] : List (List Char × List Char)).lookup "image".toList = Option.none ∧
    predict (fun _ => Option.none) (load_model fun _ => []) [] =
      (load_model fun _ => [], .error .attributeError) ∧
    [("image".toList, "nope".toList)].lookup "image".toList = some "nope".toList ∧
    "data:image".toList.isPrefixOf "nope".toList = false ∧
    predict (fun _ => Option.none) (load_model fun _ => [])
      [("image".toList, "nope".toList)] =
      (load_model fun _ => [], .error .attributeError) ∧
    "data:image".toList.isPrefixOf "data:image/png;base64,AA==".toList = true ∧
    splitFirstComma "data:image/png;base64,AA==".toList =
      some ("data:image/png;base64".toList, "AA==".toList) ∧
    extract_image_bytes (.str "data:image/png;base64,AA==".toList) =
      (match b64decode "AA==".toList with
        | some bs => Except.ok bs
        | Option.none => Except.error PyError.binasciiError) :=
  ⟨rfl, predict_dispatch.1 _ _ [] rfl,
    by decide, by decide,
    predict_dispatch.2.1 _ _ _ "nope".toList (by decide) (by decide),
    by decide, by decide,
    predict_dispatch.2.2 "data:image/png;base64,AA==".toList
      "data:image/png;base64".toList "AA==".toList (by decide) (by decide)⟩

theorem getD_default_or_mem {α : Type} (l : List α) (n : Nat) (d : α) :
    l.getD n d = d ∨ l.getD n d ∈ l := by
  induction l generalizing n with
  | nil => left; cases n <;> rfl
  | cons x xs ih =>
      cases n with
      | zero => right; simp
      | succ m =>
          rcases ih m with h | h
          · left; simpa using h
          · right; simp only [List.getD_cons_succ]; exact List.mem_cons_of_mem x h

theorem pixBound_resize (img : Image) (hwf : imageWellFormed img)
    (i j : Nat) :
    ((img.getD i []).getD j ((0 : Nat), (0 : Nat), (0 : Nat))).1 ≤ 255 ∧
    ((img.getD i []).getD j ((0 : Nat), (0 : Nat), (0 : Nat))).2.1 ≤ 255 ∧
    ((img.getD i []).getD j ((0 : Nat), (0 : Nat), (0 : Nat))).2.2 ≤ 255 := by
  rcases getD_default_or_mem img i [] with hrow | hrow
  · rw [hrow]
    cases j <;> exact ⟨Nat.zero_le _, Nat.zero_le _, Nat.zero_le _⟩
  · rcases getD_default_or_mem (img.getD i []) j ((0 : Nat), (0 : Nat), (0 : Nat))
        with hp | hp
    · rw [hp]
      exact ⟨Nat.zero_le _, Nat.zero_le _, Nat.zero_le _⟩
    · exact hwf _ hrow _ hp

theorem imageWellFormed_cvtColor (img : Image) (hwf : imageWellFormed img) :
    imageWellFormed (cvtColorBGR2RGB img) := by
  intro row hrow p hp
  rw [cvtColorBGR2RGB] at hrow
  rcases List.mem_map.1 hrow with ⟨row0, hrow0, rfl⟩
  rcases List.mem_map.1 hp with ⟨q, hq, rfl⟩
  have := hwf row0 hrow0 q hq
  exact ⟨this.2.2, this.2.1, this.1⟩

theorem imageWellFormed_resize224 (img : Image) (hwf : imageWellFormed img) :
    imageWellFormed (resize224 img) := by
  intro row hrow p hp
  rw [resize224] at hrow
  rcases List.mem_map.1 hrow with ⟨i, _, rfl⟩
  rcases List.mem_map.1 hp with ⟨j, _, rfl⟩
  exact pixBound_resize img hwf _ _

theorem pipelineAfterDecode_shape (img : Image) :
    tensorShape4 (pipelineAfterDecode img) := by
  refine ⟨rfl, ?_⟩
  intro b hb
  rw [pipelineAfterDecode, expandDims] at hb
  rcases List.mem_singleton.1 hb with rfl
  constructor
  · rw [normalize255, List.length_map, resize224, List.length_map, List.length_range]
  · intro r hr
    rw [normalize255] at hr
    rcases List.mem_map.1 hr with ⟨row, hrow, rfl⟩
    constructor
    · rw [resize224] at hrow
      rcases List.mem_map.1 hrow with ⟨i, _, rfl⟩
      rw [List.length_map, List.length_map, List.length_range]
    · intro p hp
      rcases List.mem_map.1 hp with ⟨q, _, rfl⟩
      rfl

theorem div255_mem_unit (c : Nat) (hc : c ≤ 255) :
    0 ≤ (c : ℚ) / 255 ∧ (c : ℚ) / 255 ≤ 1 := by
  constructor
  · positivity
  · rw [div_le_one (by norm_num)]
    exact_mod_cast le_trans hc (by norm_num)

theorem pipelineAfterDecode_range (img : Image) (hwf : imageWellFormed img) :
    tensorRange01 (pipelineAfterDecode img) := by
  intro b hb r hr p hp q hq
  rw [pipelineAfterDecode, expandDims] at hb
  rcases List.mem_singleton.1 hb with rfl
  rw [normalize255] at hr
  rcases List.mem_map.1 hr with ⟨row, hrow, rfl⟩
  rcases List.mem_map.1 hp with ⟨px, hpx, rfl⟩
  have hbound := imageWellFormed_resize224 _ (imageWellFormed_cvtColor img hwf)
    row hrow px hpx
  simp only [List.mem_cons, List.not_mem_nil, or_false] at hq
  rcases hq with hq | hq | hq
  · exact hq ▸ div255_mem_unit _ hbound.1
  · exact hq ▸ div255_mem_unit _ hbound.2.1
  · exact hq ▸ div255_mem_unit _ hbound.2.2

/-- C1: for every valid image input — any `PyValue` whose byte extraction
succeeds (data-URL string or byte-stream upload) and whose bytes the image
codec decodes to an image with 8-bit channel values — `preprocess_image`
returns a 4-D tensor of exact shape (1, 224, 224, 3) with every element in
the closed interval [0, 1], obtained by resizing to 224×224, dividing by
255 and prepending a batch axis of size 1. -/
theorem preprocess_image_shape_range (dec : Decoder) (data : PyValue)
    (bytes : List Nat) (img : Image)
    (hb : extract_image_bytes data = .ok bytes)
    (hdec : dec bytes = some img) (hwf : imageWellFormed img) :
    ∃ t, preprocess_image dec data = .ok t ∧ tensorShape4 t ∧ tensorRange01 t := by
  refine ⟨pipelineAfterDecode img, ?_, pipelineAfterDecode_shape img,
    pipelineAfterDecode_range img hwf⟩
  rw [preprocess_image, hb]
  dsimp only
  rw [hdec]

theorem preprocess_image_shape_range_witness :
    extract_image_bytes (.fileStorage ⟨['x'], [7]⟩) = .ok [7] ∧
    (fun bs => if bs = [7] then some [[((1 : Nat), (2 : Nat), (3 : Nat))]]
      else (Option.none : Option Image)) [7] =
      some [[((1 : Nat), (2 : Nat), (3 : Nat))]] ∧
    imageWellFormed [[((1 : Nat), (2 : Nat), (3 : Nat))]] ∧
    ∃ t, preprocess_image
      (fun bs => if bs = [7] then some [[((1 : Nat), (2 : Nat), (3 : Nat))]]
        else Option.none) (.fileStorage ⟨['x'], [7]⟩) = .ok t ∧
      tensorShape4 t ∧ tensorRange01 t :=
  ⟨rfl, by decide, by decide,
    preprocess_image_shape_range _ _ [7] [[((1 : Nat), (2 : Nat), (3 : Nat))]]
      rfl (by decide) (by decide)⟩

theorem sextetVal_sextetChar (n : Nat) (h : n < 64) :
    sextetVal (sextetChar n) = some n := by
  revert n
  decide

theorem sextetChar_ne_pad (n : Nat) (h : n < 64) : sextetChar n ≠ '=' := by
  revert n
  decide

theorem b64_roundtrip_aux : ∀ (n : Nat) (bs : List Nat), bs.length ≤ n →
    (∀ b ∈ bs, b < 256) → b64decode (b64encode bs) = some bs := by
  intro n
  induction n with
  | zero =>
      intro bs hlen _
      rw [List.length_eq_zero.1 (Nat.le_zero.1 hlen)]
      rfl
  | succ n ih =>
      intro bs hlen h
      rcases bs with _ | ⟨a, _ | ⟨b, _ | ⟨c, rest⟩⟩⟩
      · rfl
      · have ha : a < 256 := h a (by simp)
        have h1 : sextetVal (sextetChar (a / 4)) = some (a / 4) :=
          sextetVal_sextetChar _ (by omega)
        have h2 : sextetVal (sextetChar (a % 4 * 16)) = some (a % 4 * 16) :=
          sextetVal_sextetChar _ (by omega)
        rw [b64encode]
        simp only [b64decode, h1, h2, if_pos rfl, and_self, if_true,
          Option.some.injEq, List.cons.injEq, and_true]
        omega
      · have ha : a < 256 := h a (by simp)
        have hb : b < 256 := h b (by simp)
        have h1 : sextetVal (sextetChar (a / 4)) = some (a / 4) :=
          sextetVal_sextetChar _ (by omega)
        have h2 : sextetVal (sextetChar (a % 4 * 16 + b / 16)) =
            some (a % 4 * 16 + b / 16) := sextetVal_sextetChar _ (by omega)
        have h3 : sextetVal (sextetChar (b % 16 * 4)) = some (b % 16 * 4) :=
          sextetVal_sextetChar _ (by omega)
        have hne : sextetChar (b % 16 * 4) ≠ '=' := sextetChar_ne_pad _ (by omega)
        rw [b64encode]
        simp only [b64decode, h1, h2, h3, if_neg hne, if_pos rfl, if_true,
          Option.some.injEq, List.cons.injEq, and_true]
        constructor <;> omega
      · have ha : a < 256 := h a (by simp)
        have hb : b < 256 := h b (by simp)
        have hc : c < 256 := h c (by simp)
        have hlen' : rest.length ≤ n := by
          simp only [List.length_cons] at hlen
          omega
        have hrest : ∀ x ∈ rest, x < 256 := fun x hx => h x (by simp [hx])
        have h1 : sextetVal (sextetChar (a / 4)) = some (a / 4) :=
          sextetVal_sextetChar _ (by omega)
        have h2 : sextetVal (sextetChar (a % 4 * 16 + b / 16)) =
            some (a % 4 * 16 + b / 16) := sextetVal_sextetChar _ (by omega)
        have h3 : sextetVal (sextetChar (b % 16 * 4 + c / 64)) =
            some (b % 16 * 4 + c / 64) := sextetVal_sextetChar _ (by omega)
        have h4 : sextetVal (sextetChar (c % 64)) = some (c % 64) :=
          sextetVal_sextetChar _ (by omega)
        have hne3 : sextetChar (b % 16 * 4 + c / 64) ≠ '=' :=
          sextetChar_ne_pad _ (by omega)
        have hne4 : sextetChar (c % 64) ≠ '=' := sextetChar_ne_pad _ (by omega)
        rw [b64encode]
        simp only [b64decode, h1, h2, h3, h4, if_neg hne3, if_neg hne4,
          ih rest hlen' hrest]
        simp only [Option.some.injEq, List.cons.injEq, and_true, true_and,
          eq_self_iff_true]
        refine ⟨by omega, by omega, by omega⟩

theorem b64decode_b64encode (bs : List Nat) (h : ∀ b ∈ bs, b < 256) :
    b64decode (b64encode bs) = some bs :=
  b64_roundtrip_aux bs.length bs (le_refl _) h

theorem isPrefixOf_append_right (l1 l2 l3 : List Char)
    (h : l1.isPrefixOf l2 = true) : l1.isPrefixOf (l2 ++ l3) = true := by
  induction l1 generalizing l2 with
  | nil => simp [List.isPrefixOf]
  | cons a as ih =>
      cases l2 with
      | nil => exact absurd h (by simp [List.isPrefixOf])
      | cons b bs =>
          simp only [List.isPrefixOf, List.cons_append, Bool.and_eq_true] at h ⊢
          exact ⟨h.1, ih bs h.2⟩

theorem splitFirstComma_append (l1 l2 : List Char) (h : ',' ∉ l1) :
    splitFirstComma (l1 ++ ',' :: l2) = some (l1, l2) := by
  induction l1 with
  | nil => simp [splitFirstComma]
  | cons a as ih =>
      have ha : ¬ a = ',' := fun hc => h (by simp [hc])
      have has : ',' ∉ as := fun hc => h (by simp [hc])
      simp only [List.cons_append, splitFirstComma, if_neg ha, List.append_eq,
        ih has, Option.map_some]
      rfl

/-- C2: feeding the same raw bytes through the data-URL entry point (as a
base64 data-URL string) and through the byte-stream entry point (as an
uploaded file whose `.read()` yields the same bytes) produces the same
tensor from `preprocess_image` — for every decoder, i.e. the two branches
hand identical bytes to the identical downstream pipeline. -/
theorem preprocess_image_path_equivalence (dec : Decoder) (bs : List Nat)
    (h : ∀ b ∈ bs, b < 256) (f : FileStorage) (hc : f.content = bs) :
    preprocess_image dec
        (.str ("data:image/png;base64,".toList ++ b64encode bs)) =
      preprocess_image dec (.fileStorage f) := by
  have hhdr : "data:image/png;base64,".toList =
      "data:image/png;base64".toList ++ [','] := by decide
  have hnc : ',' ∉ "data:image/png;base64".toList := by decide
  have hpre : "data:image".toList.isPrefixOf
      ("data:image/png;base64,".toList ++ b64encode bs) = true :=
    isPrefixOf_append_right _ _ _ (by decide)
  have hsplit : splitFirstComma
      ("data:image/png;base64,".toList ++ b64encode bs) =
      some ("data:image/png;base64".toList, b64encode bs) := by
    rw [hhdr, List.append_assoc]
    exact splitFirstComma_append _ _ hnc
  have hex1 : extract_image_bytes
      (.str ("data:image/png;base64,".toList ++ b64encode bs)) = .ok bs := by
    rw [extract_image_bytes, if_pos hpre, hsplit]
    dsimp only
    rw [b64decode_b64encode bs h]
  have hex2 : extract_image_bytes (.fileStorage f) = .ok bs := by
    rw [extract_image_bytes, hc]
  rw [preprocess_image, preprocess_image, hex1, hex2]

theorem preprocess_image_path_equivalence_witness :
    (∀ b ∈ [(10 : Nat), 200, 33], b < 256) ∧
    (FileStorage.mk ['u'] [10, 200, 33]).content = [10, 200, 33] ∧
    preprocess_image (fun _ => Option.none)
        (.str ("data:image/png;base64,".toList ++ b64encode [10, 200, 33])) =
      preprocess_image (fun _ => Option.none)
        (.fileStorage (FileStorage.mk ['u'] [10, 200, 33])) :=
  ⟨by decide, rfl,
    preprocess_image_path_equivalence _ [10, 200, 33] (by decide)
      (FileStorage.mk ['u'] [10, 200, 33]) rfl⟩
